import Mathlib

/-!
Verification of the document batch-generation-and-merge workflow implemented in
`src/app.py` (`replace_text`, `process_dataframe`, `generate_documents`).

The Python code is shallowly embedded: Python strings become `List Char`,
the filesystem becomes an association list from path to file content, the
external libraries (pandas, docxtpl, docxcompose, shutil, os) become an
environment of oracles (`Env`) recording the outcome of each external call,
and `generate_documents`'s try/except wrapper becomes an `Except`-valued body
whose error is mapped to the `(None, None)` return value.
-/

namespace DocMerge

/-- Characters of a Python string. -/
abbrev Str := List Char

/-- A spreadsheet cell value: a Python string, or any non-string scalar
(numbers, dates, ...), which `replace_text` leaves untouched. -/
inductive Value where
  | s (t : Str)
  | other (n : Nat)
deriving DecidableEq

/-- One record: the ordered field-name-to-value mapping of one row
(`df.to_dict(orient='records')` element). -/
abbrev Rec := List (Str × Value)

/-- Opaque identifier for the content docxtpl renders from one record. -/
abbrev Seg := Nat

/-- Python exception kinds arising inside `generate_documents`. -/
inductive PyErr where
  | sourceReadError
  | renderError
  | ioError
  | indexError
deriving DecidableEq

/-- Content of a file on disk: a docx document (its ordered content segments),
or arbitrary non-docx bytes. -/
inductive Content where
  | doc (segs : List Seg)
  | raw (n : Nat)
deriving DecidableEq

/-! ### Decimal formatting (Python `f"{k:03d}"` and `strftime`) -/

/-- The decimal digit characters Python prints. -/
def digitChar (d : Nat) : Char :=
  match d with
  | 0 => '0'
  | 1 => '1'
  | 2 => '2'
  | 3 => '3'
  | 4 => '4'
  | 5 => '5'
  | 6 => '6'
  | 7 => '7'
  | 8 => '8'
  | _ => '9'

/-- Numeric value of a decimal digit character. -/
def charVal (c : Char) : Nat := c.toNat - 48

/-- Fuel-driven big-endian decimal digits of `n` (fuel `≥ n` suffices). -/
def natDigitsAux : Nat → Nat → Str
  | 0, n => [digitChar (n % 10)]
  | fuel + 1, n =>
    if n < 10 then [digitChar n] else natDigitsAux fuel (n / 10) ++ [digitChar (n % 10)]

/-- Big-endian decimal digit characters of `n`, as Python's `str(n)`. -/
def natDigits (n : Nat) : Str := natDigitsAux n n

/-- Python's zero-padded decimal formatting `f"{n:0wd}"`. -/
def padNum (w n : Nat) : Str := List.replicate (w - (natDigits n).length) '0' ++ natDigits n

/-- Python's `f"{n:03d}"`. -/
def fmt03 (n : Nat) : Str := padNum 3 n

/-- Decimal value of a big-endian digit-character string. -/
def decodeDec (l : Str) : Nat := l.foldl (fun a c => 10 * a + charVal c) 0

/-- Python's string `<` (code-point lexicographic order). -/
def strLt : Str → Str → Bool
  | [], [] => false
  | [], _ :: _ => true
  | _ :: _, [] => false
  | a :: as, b :: bs =>
    if a.toNat < b.toNat then true
    else if a.toNat = b.toNat then strLt as bs
    else false

/-- Test whether `l` starts with `p`. -/
def leadsWith : Str → Str → Bool
  | [], _ => true
  | _ :: _, [] => false
  | a :: as, b :: bs => a = b && leadsWith as bs

/-! ### `replace_text` and `process_dataframe` (src/app.py lines 23-35) -/

/-- The corrupted carriage-return marker `"_x000D_"`. -/
def markerStr : Str := ['_', 'x', '0', '0', '0', 'D', '_']

/-- Python's `text.replace("_x000D_", ".")`: scan left to right; at each
position, if the marker starts there, emit `'.'`, consume the marker's seven
characters and continue after them; otherwise copy one character. -/
def replaceStr : Str → Str
  | '_' :: 'x' :: '0' :: '0' :: '0' :: 'D' :: '_' :: rest => '.' :: replaceStr rest
  | c :: rest => c :: replaceStr rest
  | [] => []

/-- Whether the marker occurs anywhere in `l`. -/
def hasMarker : Str → Bool
  | [] => false
  | c :: rest => leadsWith markerStr (c :: rest) || hasMarker rest

/-- Python `replace_text` (src/app.py lines 23-27): replace the marker in a string
value; return any non-string value unchanged. -/
def replace_text : Value → Value
  | Value.s t => Value.s (replaceStr t)
  | Value.other n => Value.other n

/-- Python `process_dataframe` (src/app.py lines 29-35): apply `replace_text` to
every value of every record. -/
def process_dataframe (df : List Rec) : List Rec :=
  df.map (fun r => r.map (fun kv => (kv.1, replace_text kv.2)))

/-! ### File names (src/app.py lines 52, 66, 68, 74-81) -/

/-- Timestamp as captured by `datetime.now()`. -/
structure Timestamp where
  year : Nat
  month : Nat
  day : Nat
  hour : Nat
  minute : Nat
  second : Nat
deriving DecidableEq

/-- Fields lie in the ranges that `strftime("%Y%m%d_%H%M%S")` pads to fixed
width (real calendar values always do). -/
def Timestamp.valid (t : Timestamp) : Prop :=
  t.year < 10000 ∧ t.month < 100 ∧ t.day < 100 ∧ t.hour < 100 ∧ t.minute < 100 ∧
    t.second < 100

/-- Python `strftime("%Y%m%d_%H%M%S")`. -/
def fmtTS (t : Timestamp) : Str :=
  padNum 4 t.year ++ padNum 2 t.month ++ padNum 2 t.day ++
    '_' :: (padNum 2 t.hour ++ padNum 2 t.minute ++ padNum 2 t.second)

/-- The name `generated_doc_` + zero-padded index + `.docx` (line 66). -/
def genName (k : Nat) : Str := "generated_doc_".data ++ fmt03 k ++ ".docx".data

/-- The path `temp_individual_docs/doc_` + zero-padded index + `.docx` (line 68). -/
def tempName (k : Nat) : Str := "temp_individual_docs/doc_".data ++ fmt03 k ++ ".docx".data

/-- The per-record output path chosen at line 65-68 for 1-based index `k`. -/
def docName (keep : Bool) (k : Nat) : Str := if keep then genName k else tempName k

/-- The default output name `merged_document_` + timestamp + `.docx` (line 77). -/
def mergedName (t : Timestamp) : Str := "merged_document_".data ++ fmtTS t ++ ".docx".data

/-- The backup name `backup_` + timestamp + `_` + original name (line 81). -/
def backupName (t : Timestamp) (orig : Str) : Str :=
  "backup_".data ++ fmtTS t ++ '_' :: orig

/-- Paths inside the intermediate directory start with this. -/
def tempDirSlash : Str := "temp_individual_docs/".data

/-! ### The filesystem model -/

/-- Content at path `p`, if a file exists there. -/
def lookupF : List (Str × Content) → Str → Option Content
  | [], _ => none
  | (q, c) :: rest, p => if q = p then some c else lookupF rest p

/-- Delete the file at path `p` (`os.remove`). -/
def eraseF : List (Str × Content) → Str → List (Str × Content)
  | [], _ => []
  | (q, c) :: rest, p => if q = p then eraseF rest p else (q, c) :: eraseF rest p

/-- Write (create or overwrite) the file at path `p`. -/
def setF (fs : List (Str × Content)) (p : Str) (c : Content) : List (Str × Content) :=
  (p, c) :: eraseF fs p

/-- Python `os.path.exists`. -/
def existsF (fs : List (Str × Content)) (p : Str) : Bool := (lookupF fs p).isSome

/-- Python `any(temp_dir.iterdir())`: some file lives under the temp directory. -/
def anyTemp (fs : List (Str × Content)) : Bool :=
  fs.any (fun qc => leadsWith tempDirSlash qc.1)

/-- Filesystem plus whether `temp_individual_docs` exists as a directory. -/
structure FSState where
  files : List (Str × Content)
  tempDir : Bool

/-- Outcomes of the external calls made during one `generate_documents` run:
reading the spreadsheet, rendering each record, the two `datetime.now()`
calls, and which filesystem operations raise `IOError`. -/
structure Env where
  readExcel : Except PyErr (List Rec)
  renderSave : Rec → Except PyErr Seg
  ts1 : Timestamp
  ts2 : Timestamp
  copyFails : Bool
  mergeSaveFails : Bool
  removeFails : Str → Bool
  rmdirFails : Bool

/-! ### The pipeline of `generate_documents` (src/app.py lines 37-117) -/

/-- The per-record loop (lines 58-72): for 1-based index `i+1`, render the
record, save it at `docName keep (i+1)` and collect that path; the first
render/save failure aborts with the state reached so far. -/
def renderLoop (env : Env) (keep : Bool) :
    List Rec → Nat → FSState → Except PyErr (List Str) × FSState
  | [], _, st => (Except.ok [], st)
  | r :: rest, i, st =>
    match env.renderSave r with
    | Except.error e => (Except.error e, st)
    | Except.ok seg =>
      let name := docName keep (i + 1)
      let st1 : FSState := { st with files := setF st.files name (Content.doc [seg]) }
      match renderLoop env keep rest (i + 1) st1 with
      | (Except.error e, st2) => (Except.error e, st2)
      | (Except.ok names, st2) => (Except.ok (name :: names), st2)

/-- Python `Document(path)`: read a docx file from disk. -/
def readDoc (fs : List (Str × Content)) (p : Str) : Except PyErr (List Seg) :=
  match lookupF fs p with
  | some (Content.doc segs) => Except.ok segs
  | some (Content.raw _) => Except.error PyErr.ioError
  | none => Except.error PyErr.ioError

/-- Python `composer.append` over the remaining files (lines 90-92): append each
file's full content after the current end of the base document. -/
def appendLoop (fs : List (Str × Content)) : List Str → List Seg → Except PyErr (List Seg)
  | [], acc => Except.ok acc
  | f :: rest, acc =>
    match readDoc fs f with
    | Except.error e => Except.error e
    | Except.ok d => appendLoop fs rest (acc ++ d)

/-- Lines 87-92: `generated_files[0]` is the base (raising `IndexError` on an
empty list), then every later file is appended in order. -/
def mergeRead (fs : List (Str × Content)) : List Str → Except PyErr (List Seg)
  | [] => Except.error PyErr.indexError
  | f :: rest =>
    match readDoc fs f with
    | Except.error e => Except.error e
    | Except.ok master => appendLoop fs rest master

/-- Lines 79-83: when requested and the output path exists, copy its current
content to the timestamped backup name before the merged write. -/
def doBackup (env : Env) (cb : Bool) (outName : Str) (st : FSState) :
    Except PyErr Unit × FSState :=
  if cb && existsF st.files outName then
    if env.copyFails then (Except.error PyErr.ioError, st)
    else
      match lookupF st.files outName with
      | some c =>
        (Except.ok (),
          { st with files := setF st.files (backupName env.ts2 outName) c })
      | none => (Except.ok (), st)
  else (Except.ok (), st)

/-- Lines 85-94: merge the generated files and save the result at the output
path. -/
def doMergeSave (env : Env) (outName : Str) (gfiles : List Str) (st : FSState) :
    Except PyErr Unit × FSState :=
  match mergeRead st.files gfiles with
  | Except.error e => (Except.error e, st)
  | Except.ok segs =>
    if env.mergeSaveFails then (Except.error PyErr.ioError, st)
    else (Except.ok (), { st with files := setF st.files outName (Content.doc segs) })

/-- Lines 98-102: `os.remove` each generated file, swallowing any exception
(a failed removal leaves the file in place). -/
def cleanupFiles (env : Env) : List Str → List (Str × Content) → List (Str × Content)
  | [], fs => fs
  | f :: rest, fs => cleanupFiles env rest (if env.removeFails f then fs else eraseF fs f)

/-- Lines 96-107: delete the generated files, then remove the temp directory
if it exists and is empty, swallowing any exception. -/
def cleanup (env : Env) (files : List Str) (st : FSState) : FSState :=
  let fs1 := cleanupFiles env files st.files
  if st.tempDir && !anyTemp fs1 then
    if env.rmdirFails then { st with files := fs1 }
    else { files := fs1, tempDir := false }
  else { st with files := fs1 }

/-- The body of the `try:` block of `generate_documents` (lines 42-112),
threading the filesystem state; an `Except.error` is an uncaught Python
exception together with the state at the point it was raised. -/
def generateBody (env : Env) (ofn : Option Str) (keep cb : Bool) (st0 : FSState) :
    Except PyErr (Str × Option (List Str)) × FSState :=
  match env.readExcel with
  | Except.error e => (Except.error e, st0)
  | Except.ok df =>
    let records := process_dataframe df
    let st1 : FSState := if keep then st0 else { st0 with tempDir := true }
    match renderLoop env keep records 0 st1 with
    | (Except.error e, st2) => (Except.error e, st2)
    | (Except.ok gfiles, st2) =>
      let outName := ofn.getD (mergedName env.ts1)
      match doBackup env cb outName st2 with
      | (Except.error e, st3) => (Except.error e, st3)
      | (Except.ok _, st3) =>
        match doMergeSave env outName gfiles st3 with
        | (Except.error e, st4) => (Except.error e, st4)
        | (Except.ok _, st4) =>
          let st5 := if keep then st4 else cleanup env gfiles st4
          (Except.ok (outName, if keep then some gfiles else none), st5)

/-- Python `generate_documents` (lines 37-117): run the body; the `except Exception`
handler (lines 114-117) turns any raised exception into the `(None, None)`
return value, keeping whatever filesystem state the run had produced. -/
def generate_documents (env : Env) (ofn : Option Str) (keep cb : Bool) (st0 : FSState) :
    (Option Str × Option (List Str)) × FSState :=
  match generateBody env ofn keep cb st0 with
  | (Except.ok (nm, gf), st) => ((some nm, gf), st)
  | (Except.error _, st) => ((none, none), st)

/-- The file names produced for records `i+1, ..., i+n` (1-based). -/
def gNames (keep : Bool) (i n : Nat) : List Str :=
  (List.range n).map (fun j => docName keep (i + 1 + j))

/-- The filesystem state left by a fully successful run, phase by phase:
the temp directory creation, the render loop, the backup step, the merged
write at the output path, and (unless `keep`) the cleanup. -/
def successState (env : Env) (ofn : Option Str) (keep cb : Bool) (st0 : FSState)
    (rs : List Rec) (f : Rec → Seg) : FSState :=
  let outName := ofn.getD (mergedName env.ts1)
  let st1 : FSState := if keep then st0 else { st0 with tempDir := true }
  let st2 := (renderLoop env keep rs 0 st1).2
  let st3 := (doBackup env cb outName st2).2
  let st4 : FSState := { st3 with files := setF st3.files outName (Content.doc (rs.map f)) }
  if keep then st4 else cleanup env (gNames keep 0 rs.length) st4

/-! ### Concrete inputs used to exercise the model -/

/-- A sample run timestamp. -/
def tsW : Timestamp := ⟨2026, 10, 12, 9, 30, 0⟩

/-- A sample record whose values survive normalization unchanged. -/
def recW : Rec := [("Name".data, Value.s "Alice".data)]

/-- A second sample record. -/
def recBad : Rec := [("Name".data, Value.other 1)]

/-- An empty filesystem. -/
def stEmptyW : FSState := { files := [], tempDir := false }

/-- A filesystem already holding a file at the first generated-document path. -/
def stClashW : FSState := { files := [(genName 1, Content.raw 42)], tempDir := false }

/-- A filesystem already holding a file at the requested output path. -/
def stOutW : FSState := { files := [("out.docx".data, Content.raw 7)], tempDir := false }

/-- An environment in which every external call succeeds. -/
def envOkW : Env where
  readExcel := Except.ok [recW]
  renderSave := fun _ => Except.ok 5
  ts1 := tsW
  ts2 := tsW
  copyFails := false
  mergeSaveFails := false
  removeFails := fun _ => false
  rmdirFails := false

/-- Successful environment over an empty spreadsheet. -/
def envEmptyW : Env := { envOkW with readExcel := Except.ok [] }

/-- Environment whose second record fails to render. -/
def envRenderFailW : Env := { envOkW with
  readExcel := Except.ok [recW, recBad]
  renderSave := fun r => if r = recW then Except.ok 5 else Except.error PyErr.renderError }

/-- Successful environment in which every `os.remove` raises `IOError`. -/
def envRmFailW : Env := { envOkW with removeFails := fun _ => true }

/-! ### Lemmas about `leadsWith` and `replaceStr` -/

theorem leadsWith_iff (p l : Str) : leadsWith p l = true ↔ ∃ t, l = p ++ t := by
  induction p generalizing l with
  | nil => simp [leadsWith]
  | cons a as ih =>
    cases l with
    | nil => simp [leadsWith]
    | cons b bs =>
      simp only [leadsWith, Bool.and_eq_true, decide_eq_true_eq, ih, List.cons_append]
      constructor
      · rintro ⟨rfl, t, rfl⟩; exact ⟨t, rfl⟩
      · rintro ⟨t, h⟩
        cases h
        exact ⟨rfl, t, rfl⟩

theorem replaceStr_cons_eq (c : Char) (rest : Str)
    (hno : ∀ t : Str, c = '_' → rest = 'x' :: '0' :: '0' :: '0' :: 'D' :: '_' :: t → False) :
    replaceStr (c :: rest) = c :: replaceStr rest := by
  rw [replaceStr.eq_def]
  split
  · rename_i t heq
    injection heq with h1 h2
    exact (hno t h1 h2).elim
  · rename_i x c2 rest2 hno2 heq
    injection heq with h1 h2
    subst h1; subst h2; rfl
  · rename_i heq
    exact (List.cons_ne_nil c rest heq).elim

/-- A nonempty period-free pattern found at the head of `replaceStr m` was
already at the head of `m`: replacement dots never take part in a new match. -/
theorem leadsWith_replaceStr (m : Str) : ∀ p : Str, p ≠ [] → (∀ c ∈ p, c ≠ '.') →
    leadsWith p (replaceStr m) = true → leadsWith p m = true := by
  induction m using replaceStr.induct with
  | case1 rest ih =>
    intro p hne hdot h
    have e : replaceStr ('_' :: 'x' :: '0' :: '0' :: '0' :: 'D' :: '_' :: rest) =
        '.' :: replaceStr rest := rfl
    rw [e] at h
    cases p with
    | nil => exact absurd rfl hne
    | cons x p1 =>
      simp only [leadsWith, Bool.and_eq_true, decide_eq_true_eq] at h
      exact absurd h.1 (hdot x (List.mem_cons_self _ _))
  | case2 c rest hno ih =>
    intro p hne hdot h
    rw [replaceStr_cons_eq c rest hno] at h
    cases p with
    | nil => exact absurd rfl hne
    | cons x p1 =>
      simp only [leadsWith, Bool.and_eq_true, decide_eq_true_eq] at h ⊢
      obtain ⟨rfl, h2⟩ := h
      refine ⟨rfl, ?_⟩
      cases p1 with
      | nil => simp [leadsWith]
      | cons y p2 =>
        exact ih (y :: p2) (by simp) (fun ch hch => hdot ch (List.mem_cons_of_mem _ hch)) h2
  | case3 =>
    intro p hne hdot h
    cases p with
    | nil => exact absurd rfl hne
    | cons x p1 => simp [replaceStr, leadsWith] at h

/-- After one pass of the replacement no occurrence of the marker remains. -/
theorem hasMarker_replaceStr (m : Str) : hasMarker (replaceStr m) = false := by
  induction m using replaceStr.induct with
  | case1 rest ih =>
    have e : replaceStr ('_' :: 'x' :: '0' :: '0' :: '0' :: 'D' :: '_' :: rest) =
        '.' :: replaceStr rest := rfl
    rw [e]
    simp only [hasMarker, Bool.or_eq_false_iff]
    exact ⟨by simp [markerStr, leadsWith], ih⟩
  | case2 c rest hno ih =>
    rw [replaceStr_cons_eq c rest hno]
    simp only [hasMarker, Bool.or_eq_false_iff]
    refine ⟨?_, ih⟩
    by_contra hc
    rw [Bool.not_eq_false] at hc
    obtain ⟨t, ht⟩ := (leadsWith_iff _ _).mp hc
    simp only [markerStr, List.cons_append, List.nil_append] at ht
    injection ht with h1 h2
    have h3 : leadsWith (['x', '0', '0', '0', 'D', '_'] : Str) rest = true :=
      leadsWith_replaceStr rest _ (by simp) (by decide)
        ((leadsWith_iff _ _).mpr ⟨t, h2⟩)
    obtain ⟨t1, ht1⟩ := (leadsWith_iff _ _).mp h3
    exact hno t1 h1 ht1
  | case3 => rfl

/-- The replacement is the identity on marker-free strings. -/
theorem replaceStr_of_hasMarker_false (m : Str) (h : hasMarker m = false) :
    replaceStr m = m := by
  induction m using replaceStr.induct with
  | case1 rest ih =>
    exfalso
    simp only [hasMarker, Bool.or_eq_false_iff] at h
    have ht : leadsWith markerStr ('_' :: 'x' :: '0' :: '0' :: '0' :: 'D' :: '_' :: rest) =
        true := (leadsWith_iff _ _).mpr ⟨rest, by simp [markerStr]⟩
    rw [h.1] at ht
    exact Bool.false_ne_true ht
  | case2 c rest hno ih =>
    rw [replaceStr_cons_eq c rest hno]
    simp only [hasMarker, Bool.or_eq_false_iff] at h
    rw [ih h.2]
  | case3 => rfl

theorem replaceStr_idem (m : Str) : replaceStr (replaceStr m) = replaceStr m :=
  replaceStr_of_hasMarker_false _ (hasMarker_replaceStr m)

theorem replace_text_idem (v : Value) : replace_text (replace_text v) = replace_text v := by
  cases v with
  | s t => simp [replace_text, replaceStr_idem]
  | other n => rfl

/-! ### Lemmas about decimal formatting -/

theorem charVal_digitChar (d : Nat) (h : d < 10) : charVal (digitChar d) = d := by
  interval_cases d <;> rfl

theorem digitChar_toNat (d : Nat) (h : d < 10) : (digitChar d).toNat = 48 + d := by
  interval_cases d <;> rfl

theorem natDigitsAux_irrel : ∀ f1 n f2 : Nat, n ≤ f1 → n ≤ f2 →
    natDigitsAux f1 n = natDigitsAux f2 n := by
  intro f1
  induction f1 with
  | zero =>
    intro n f2 h1 h2
    interval_cases n
    cases f2 with
    | zero => rfl
    | succ g => simp [natDigitsAux]
  | succ f ih =>
    intro n f2 h1 h2
    cases f2 with
    | zero =>
      interval_cases n
      simp [natDigitsAux]
    | succ g =>
      simp only [natDigitsAux]
      by_cases hn : n < 10
      · simp [hn]
      · rw [if_neg hn, if_neg hn]
        have hlt : n / 10 < n := Nat.div_lt_self (by omega) (by omega)
        rw [ih (n / 10) g (by omega) (by omega)]

theorem natDigits_eq (n : Nat) :
    natDigits n =
      if n < 10 then [digitChar n] else natDigits (n / 10) ++ [digitChar (n % 10)] := by
  by_cases h : n < 10
  · rw [if_pos h]
    cases n with
    | zero => rfl
    | succ m => simp [natDigits, natDigitsAux, h]
  · rw [if_neg h]
    cases n with
    | zero => omega
    | succ m =>
      show natDigitsAux (m + 1) (m + 1) = _
      simp only [natDigitsAux]
      rw [if_neg h]
      congr 1
      apply natDigitsAux_irrel
      · have : (m + 1) / 10 < m + 1 := Nat.div_lt_self (by omega) (by omega)
        omega
      · exact Nat.le_refl _

theorem natDigits_lt_ten (n : Nat) (h : n < 10) : natDigits n = [digitChar n] := by
  rw [natDigits_eq, if_pos h]

theorem decodeDec_append_last (xs : Str) (c : Char) :
    decodeDec (xs ++ [c]) = 10 * decodeDec xs + charVal c := by
  simp [decodeDec, List.foldl_append]

theorem decodeDec_natDigits (n : Nat) : decodeDec (natDigits n) = n := by
  induction n using Nat.strong_induction_on with
  | _ n ih =>
    rw [natDigits_eq n]
    by_cases h : n < 10
    · rw [if_pos h]
      simp [decodeDec, charVal_digitChar n h]
    · rw [if_neg h, decodeDec_append_last]
      have hlt : n / 10 < n := Nat.div_lt_self (by omega) (by omega)
      rw [ih (n / 10) hlt, charVal_digitChar (n % 10) (by omega)]
      omega

theorem decodeDec_replicate_zero (k : Nat) (l : Str) :
    decodeDec (List.replicate k '0' ++ l) = decodeDec l := by
  induction k with
  | zero => simp
  | succ m ih =>
    have h0 : 10 * 0 + charVal '0' = 0 := by decide
    simp only [List.replicate_succ, List.cons_append, decodeDec, List.foldl_cons, h0]
    exact ih

theorem padNum_inj (w a b : Nat) (h : padNum w a = padNum w b) : a = b := by
  have ha := congrArg decodeDec h
  simpa [padNum, decodeDec_replicate_zero, decodeDec_natDigits] using ha

theorem fmt03_inj (a b : Nat) (h : fmt03 a = fmt03 b) : a = b := padNum_inj 3 a b h

theorem natDigits_length_le : ∀ n k : Nat, 1 ≤ k → n < 10 ^ k →
    (natDigits n).length ≤ k := by
  intro n
  induction n using Nat.strong_induction_on with
  | _ n ih =>
    intro k hk hn
    rw [natDigits_eq n]
    by_cases h : n < 10
    · rw [if_pos h]
      simpa using hk
    · rw [if_neg h]
      have hk2 : 2 ≤ k := by
        by_contra hc
        have hk1 : k = 1 := by omega
        rw [hk1, pow_one] at hn
        omega
      have hp : 10 ^ (k - 1) * 10 = 10 ^ k := by
        rw [← pow_succ]
        congr 1
        omega
      have hdiv : n / 10 < 10 ^ (k - 1) := by
        rw [Nat.div_lt_iff_lt_mul (by omega), hp]
        exact hn
      have hrec := ih (n / 10) (Nat.div_lt_self (by omega) (by omega)) (k - 1) (by omega) hdiv
      simp only [List.length_append, List.length_cons, List.length_nil]
      omega

theorem padNum_length (w n : Nat) (h : (natDigits n).length ≤ w) :
    (padNum w n).length = w := by
  simp only [padNum, List.length_append, List.length_replicate]
  omega

theorem fmt03_eq_triple (n : Nat) (h : n < 1000) :
    fmt03 n = [digitChar (n / 100), digitChar (n / 10 % 10), digitChar (n % 10)] := by
  rcases Nat.lt_or_ge n 10 with h1 | h1
  · have e1 : n / 100 = 0 := by omega
    have e2 : n / 10 % 10 = 0 := by omega
    have e3 : n % 10 = n := by omega
    rw [e1, e2, e3]
    simp only [fmt03, padNum, natDigits_lt_ten n h1, List.length_cons, List.length_nil]
    rfl
  · rcases Nat.lt_or_ge n 100 with h2 | h2
    · have e : natDigits n = [digitChar (n / 10), digitChar (n % 10)] := by
        rw [natDigits_eq, if_neg (by omega), natDigits_lt_ten (n / 10) (by omega)]
        rfl
      have e1 : n / 100 = 0 := by omega
      have e2 : n / 10 % 10 = n / 10 := by omega
      rw [e1, e2]
      simp only [fmt03, padNum, e, List.length_cons, List.length_nil]
      rfl
    · have e0 : natDigits (n / 100) = [digitChar (n / 100)] :=
        natDigits_lt_ten _ (by omega)
      have e1 : natDigits (n / 10) = [digitChar (n / 100), digitChar (n / 10 % 10)] := by
        rw [natDigits_eq, if_neg (by omega)]
        have hd : n / 10 / 10 = n / 100 := by omega
        rw [hd, e0]
        rfl
      have e2 : natDigits n =
          [digitChar (n / 100), digitChar (n / 10 % 10), digitChar (n % 10)] := by
        rw [natDigits_eq, if_neg (by omega), e1]
        rfl
      simp only [fmt03, padNum, e2, List.length_cons, List.length_nil]
      rfl

/-! ### Lemmas about Python's string order -/

theorem char_toNat_inj (a b : Char) (h : a.toNat = b.toNat) : a = b := by
  have := congrArg Char.ofNat h
  simpa [Char.ofNat_toNat] using this

theorem strLt_append_same (p x y : Str) : strLt (p ++ x) (p ++ y) = strLt x y := by
  induction p with
  | nil => rfl
  | cons c cs ih =>
    show strLt (c :: (cs ++ x)) (c :: (cs ++ y)) = strLt x y
    simp only [strLt]
    rw [if_neg (lt_irrefl _)]
    simpa using ih

theorem strLt_append_eqlen (x : Str) : ∀ y s t : Str, x.length = y.length → x ≠ y →
    strLt (x ++ s) (y ++ t) = strLt x y := by
  induction x with
  | nil =>
    intro y s t hl hne
    cases y with
    | nil => exact absurd rfl hne
    | cons b bs => simp at hl
  | cons a as ih =>
    intro y s t hl hne
    cases y with
    | nil => simp at hl
    | cons b bs =>
      simp only [List.cons_append, strLt]
      by_cases hab : a.toNat < b.toNat
      · rw [if_pos hab, if_pos hab]
      · rw [if_neg hab, if_neg hab]
        by_cases heq : a.toNat = b.toNat
        · rw [if_pos heq, if_pos heq]
          have hchar : a = b := char_toNat_inj a b heq
          subst hchar
          apply ih bs s t (by simpa using hl)
          intro hcon
          exact hne (by rw [hcon])
        · rw [if_neg heq, if_neg heq]

theorem fmt03_strLt (a b : Nat) (hab : a < b) (hb : b ≤ 999) :
    strLt (fmt03 a) (fmt03 b) = true := by
  rw [fmt03_eq_triple a (by omega), fmt03_eq_triple b (by omega)]
  simp only [strLt]
  rw [digitChar_toNat (a / 100) (by omega), digitChar_toNat (b / 100) (by omega),
    digitChar_toNat (a / 10 % 10) (by omega), digitChar_toNat (b / 10 % 10) (by omega),
    digitChar_toNat (a % 10) (by omega), digitChar_toNat (b % 10) (by omega)]
  by_cases h2 : a / 100 < b / 100
  · rw [if_pos (by omega)]
  · have e2 : a / 100 = b / 100 := by omega
    rw [if_neg (by omega), if_pos (by omega)]
    by_cases h1 : a / 10 % 10 < b / 10 % 10
    · rw [if_pos (by omega)]
    · have e1 : a / 10 % 10 = b / 10 % 10 := by omega
      rw [if_neg (by omega), if_pos (by omega)]
      have h0 : a % 10 < b % 10 := by omega
      rw [if_pos (by omega)]

/-! ### Lemmas about the filesystem model -/

theorem lookupF_eraseF_self : ∀ (fs : List (Str × Content)) (p : Str),
    lookupF (eraseF fs p) p = none := by
  intro fs p
  induction fs with
  | nil => rfl
  | cons qc rest ih =>
    obtain ⟨q, c⟩ := qc
    simp only [eraseF]
    by_cases h : q = p
    · rw [if_pos h]; exact ih
    · rw [if_neg h]
      simp only [lookupF, if_neg h]
      exact ih

theorem lookupF_eraseF_ne : ∀ (fs : List (Str × Content)) (p q : Str), q ≠ p →
    lookupF (eraseF fs p) q = lookupF fs q := by
  intro fs p q hne
  induction fs with
  | nil => rfl
  | cons qc rest ih =>
    obtain ⟨k, c⟩ := qc
    simp only [eraseF, lookupF]
    by_cases h : k = p
    · rw [if_pos h, if_neg (by rw [h]; exact fun hc => hne hc.symm)]
      exact ih
    · rw [if_neg h]
      simp only [lookupF]
      by_cases h2 : k = q
      · rw [if_pos h2, if_pos h2]
      · rw [if_neg h2, if_neg h2]
        exact ih

theorem lookupF_setF_self (fs : List (Str × Content)) (p : Str) (c : Content) :
    lookupF (setF fs p c) p = some c := by
  simp [setF, lookupF]

theorem lookupF_setF_ne (fs : List (Str × Content)) (p : Str) (c : Content) (q : Str)
    (h : q ≠ p) : lookupF (setF fs p c) q = lookupF fs q := by
  simp only [setF, lookupF]
  rw [if_neg (fun hc : p = q => h hc.symm)]
  exact lookupF_eraseF_ne fs p q h

theorem lookupF_cleanupFiles (env : Env) : ∀ (files : List Str) (fs : List (Str × Content))
    (p : Str), lookupF (cleanupFiles env files fs) p =
      if p ∈ files ∧ env.removeFails p = false then none else lookupF fs p := by
  intro files
  induction files with
  | nil => intro fs p; simp [cleanupFiles]
  | cons f rest ih =>
    intro fs p
    simp only [cleanupFiles]
    rw [ih]
    by_cases hin : p ∈ rest ∧ env.removeFails p = false
    · rw [if_pos hin, if_pos ⟨List.mem_cons_of_mem f hin.1, hin.2⟩]
    · rw [if_neg hin]
      by_cases hpf : p = f
      · subst hpf
        cases hrf : env.removeFails p with
        | true => simp
        | false => simpa using lookupF_eraseF_self fs p
      · have hnc : ¬(p ∈ f :: rest ∧ env.removeFails p = false) := by
          intro hc
          rcases List.mem_cons.mp hc.1 with h1 | h1
          · exact hpf h1
          · exact hin ⟨h1, hc.2⟩
        rw [if_neg hnc]
        cases hrff : env.removeFails f with
        | true => simp
        | false => simpa using lookupF_eraseF_ne fs f p hpf

theorem cleanup_files (env : Env) (files : List Str) (st : FSState) :
    (cleanup env files st).files = cleanupFiles env files st.files := by
  simp only [cleanup]
  split_ifs <;> rfl

theorem cleanup_tempDir_false (env : Env) (files : List Str) (st : FSState)
    (ha : anyTemp (cleanupFiles env files st.files) = false)
    (hr : env.rmdirFails = false) (htd : st.tempDir = true) :
    (cleanup env files st).tempDir = false := by
  simp [cleanup, ha, hr, htd]

/-! ### Facts about the generated file names -/

theorem backupName_ne_docName (t : Timestamp) (o : Str) (keep : Bool) (k : Nat) :
    backupName t o ≠ docName keep k := by
  cases keep
  · intro h
    exact absurd (show ('b' : Char) = 't' from congrArg List.headI h) (by decide)
  · intro h
    exact absurd (show ('b' : Char) = 'g' from congrArg List.headI h) (by decide)

theorem backupName_ne_self (t : Timestamp) (o : Str) : backupName t o ≠ o := by
  intro h
  have hl := congrArg List.length h
  simp only [backupName, List.length_append, List.length_cons, List.length_nil] at hl
  omega

theorem genName_inj (a b : Nat) (h : genName a = genName b) : a = b := by
  have h0 : "generated_doc_".data ++ (fmt03 a ++ ".docx".data) =
      "generated_doc_".data ++ (fmt03 b ++ ".docx".data) := h
  exact fmt03_inj a b (List.append_cancel_right (List.append_cancel_left h0))

theorem tempName_inj (a b : Nat) (h : tempName a = tempName b) : a = b := by
  have h0 : "temp_individual_docs/doc_".data ++ (fmt03 a ++ ".docx".data) =
      "temp_individual_docs/doc_".data ++ (fmt03 b ++ ".docx".data) := h
  exact fmt03_inj a b (List.append_cancel_right (List.append_cancel_left h0))

theorem docName_inj (keep : Bool) (a b : Nat) (h : docName keep a = docName keep b) :
    a = b := by
  cases keep
  · exact tempName_inj a b h
  · exact genName_inj a b h

/-! ### The render loop -/

theorem gNames_cons (keep : Bool) (i n : Nat) :
    gNames keep i (n + 1) = docName keep (i + 1) :: gNames keep (i + 1) n := by
  simp only [gNames, List.range_succ_eq_map, List.map_cons, List.map_map, List.cons.injEq]
  refine ⟨by simp, ?_⟩
  apply List.map_congr_left
  intro j hj
  simp only [Function.comp_apply]
  congr 1
  omega

theorem gNames_length (keep : Bool) (i n : Nat) : (gNames keep i n).length = n := by
  simp [gNames]

theorem gNames_get (keep : Bool) (i n j : Nat) (hj : j < (gNames keep i n).length) :
    (gNames keep i n).get ⟨j, hj⟩ = docName keep (i + 1 + j) := by
  simp [gNames]

theorem renderLoop_ok (env : Env) (keep : Bool) :
    ∀ (rs : List Rec) (f : Rec → Seg), (∀ r ∈ rs, env.renderSave r = Except.ok (f r)) →
    ∀ (i : Nat) (st : FSState),
    (renderLoop env keep rs i st).1 = Except.ok (gNames keep i rs.length) ∧
    (renderLoop env keep rs i st).2.tempDir = st.tempDir ∧
    (∀ p : Str, (∀ j, j < rs.length → p ≠ docName keep (i + 1 + j)) →
      lookupF (renderLoop env keep rs i st).2.files p = lookupF st.files p) ∧
    (∀ j (hj : j < rs.length),
      lookupF (renderLoop env keep rs i st).2.files (docName keep (i + 1 + j)) =
        some (Content.doc [f (rs.get ⟨j, hj⟩)])) := by
  intro rs
  induction rs with
  | nil =>
    intro f hf i st
    refine ⟨rfl, rfl, fun p hp => rfl, fun j hj => absurd hj (by simp)⟩
  | cons r rest ih =>
    intro f hf i st
    have hr : env.renderSave r = Except.ok (f r) := hf r (List.mem_cons_self _ _)
    have hfr : ∀ q ∈ rest, env.renderSave q = Except.ok (f q) :=
      fun q hq => hf q (List.mem_cons_of_mem r hq)
    have IH := ih f hfr (i + 1)
      { st with files := setF st.files (docName keep (i + 1)) (Content.doc [f r]) }
    rcases hrec : renderLoop env keep rest (i + 1)
        { st with files := setF st.files (docName keep (i + 1)) (Content.doc [f r]) } with
      ⟨res, st2⟩
    rw [hrec] at IH
    obtain ⟨IH1, IH2, IH3, IH4⟩ := IH
    dsimp only at IH1 IH2 IH3 IH4
    subst IH1
    have hstep : renderLoop env keep (r :: rest) i st =
        (Except.ok (docName keep (i + 1) :: gNames keep (i + 1) rest.length), st2) := by
      simp only [renderLoop, hr]
      rw [hrec]
    rw [hstep]
    refine ⟨?_, ?_, ?_, ?_⟩
    · simp only [List.length_cons]
      rw [gNames_cons]
    · exact IH2
    · intro p hp
      have h0 : p ≠ docName keep (i + 1) := by
        have := hp 0 (by simp)
        simpa using this
      have hrest : ∀ j, j < rest.length → p ≠ docName keep (i + 1 + 1 + j) := by
        intro j hj
        have := hp (j + 1) (by simp; omega)
        have harith : i + 1 + (j + 1) = i + 1 + 1 + j := by omega
        rw [harith] at this
        exact this
      rw [IH3 p hrest]
      exact lookupF_setF_ne st.files (docName keep (i + 1)) (Content.doc [f r]) p h0
    · intro j hj
      cases j with
      | zero =>
        have hne : ∀ j2, j2 < rest.length →
            docName keep (i + 1 + 0) ≠ docName keep (i + 1 + 1 + j2) := by
          intro j2 hj2 hc
          have := docName_inj keep _ _ hc
          omega
        rw [IH3 _ hne]
        have : i + 1 + 0 = i + 1 := by omega
        rw [this]
        rw [lookupF_setF_self]
        rfl
      | succ j1 =>
        have harith : i + 1 + (j1 + 1) = i + 1 + 1 + j1 := by omega
        rw [harith]
        have hj1 : j1 < rest.length := by
          simp only [List.length_cons] at hj
          omega
        rw [IH4 j1 hj1]
        rfl

/-! ### The merge step -/

theorem appendLoop_ok (fs : List (Str × Content)) :
    ∀ (names : List Str) (segs : List Seg) (acc : List Seg),
    names.length = segs.length →
    (∀ j (hj : j < names.length) (hj2 : j < segs.length),
      lookupF fs (names.get ⟨j, hj⟩) = some (Content.doc [segs.get ⟨j, hj2⟩])) →
    appendLoop fs names acc = Except.ok (acc ++ segs) := by
  intro names
  induction names with
  | nil =>
    intro segs acc hlen h
    cases segs with
    | nil => simp [appendLoop]
    | cons s ss => simp at hlen
  | cons n ns ih =>
    intro segs acc hlen h
    cases segs with
    | nil => simp at hlen
    | cons s ss =>
      have h0 : lookupF fs n = some (Content.doc [s]) := h 0 (by simp) (by simp)
      simp only [appendLoop, readDoc, h0]
      have hrest : ∀ j (hj : j < ns.length) (hj2 : j < ss.length),
          lookupF fs (ns.get ⟨j, hj⟩) = some (Content.doc [ss.get ⟨j, hj2⟩]) := by
        intro j hj hj2
        have := h (j + 1) (by simp; omega) (by simp; omega)
        simpa using this
      rw [ih ss (acc ++ [s]) (by simpa using hlen) hrest]
      simp

theorem mergeRead_ok (fs : List (Str × Content)) (names : List Str) (segs : List Seg)
    (hlen : names.length = segs.length) (hne : names ≠ [])
    (h : ∀ j (hj : j < names.length) (hj2 : j < segs.length),
      lookupF fs (names.get ⟨j, hj⟩) = some (Content.doc [segs.get ⟨j, hj2⟩])) :
    mergeRead fs names = Except.ok segs := by
  cases names with
  | nil => exact absurd rfl hne
  | cons n ns =>
    cases segs with
    | nil => simp at hlen
    | cons s ss =>
      have h0 : lookupF fs n = some (Content.doc [s]) := h 0 (by simp) (by simp)
      simp only [mergeRead, readDoc, h0]
      have hrest : ∀ j (hj : j < ns.length) (hj2 : j < ss.length),
          lookupF fs (ns.get ⟨j, hj⟩) = some (Content.doc [ss.get ⟨j, hj2⟩]) := by
        intro j hj hj2
        have := h (j + 1) (by simp; omega) (by simp; omega)
        simpa using this
      rw [appendLoop_ok fs ns ss [s] (by simpa using hlen) hrest]
      simp

/-! ### The backup step -/

theorem doBackup_fst_ok (env : Env) (cb : Bool) (outName : Str) (st : FSState)
    (hcf : env.copyFails = false) : (doBackup env cb outName st).1 = Except.ok () := by
  simp only [doBackup]
  by_cases h1 : (cb && existsF st.files outName) = true
  · rw [if_pos h1, hcf]
    cases hl : lookupF st.files outName <;> simp [hl]
  · rw [if_neg h1]

theorem doBackup_snd_tempDir (env : Env) (cb : Bool) (outName : Str) (st : FSState) :
    (doBackup env cb outName st).2.tempDir = st.tempDir := by
  simp only [doBackup]
  split_ifs with h1 h2
  · rfl
  · cases hl : lookupF st.files outName <;> simp [hl]
  · rfl

theorem doBackup_snd_lookup (env : Env) (cb : Bool) (outName : Str) (st : FSState)
    (p : Str) (hp : p ≠ backupName env.ts2 outName) :
    lookupF (doBackup env cb outName st).2.files p = lookupF st.files p := by
  simp only [doBackup]
  split_ifs with h1 h2
  · rfl
  · cases hl : lookupF st.files outName with
    | none => simp [hl]
    | some c =>
      simp only [hl]
      exact lookupF_setF_ne st.files (backupName env.ts2 outName) c p hp
  · rfl

theorem doBackup_lookup_backup (env : Env) (outName : Str) (st : FSState) (c0 : Content)
    (hcf : env.copyFails = false) (h : lookupF st.files outName = some c0) :
    lookupF (doBackup env true outName st).2.files (backupName env.ts2 outName) = some c0 := by
  simp only [doBackup]
  rw [if_pos (by simp [existsF, h] : (true && existsF st.files outName) = true), hcf]
  simp only [h]
  simpa using lookupF_setF_self st.files (backupName env.ts2 outName) c0

/-! ### A fully successful run -/

theorem run_success (env : Env) (ofn : Option Str) (keep cb : Bool) (st0 : FSState)
    (raw : List Rec) (f : Rec → Seg)
    (hre : env.readExcel = Except.ok raw)
    (hf : ∀ r ∈ process_dataframe raw, env.renderSave r = Except.ok (f r))
    (hne : process_dataframe raw ≠ [])
    (hcf : env.copyFails = false)
    (hms : env.mergeSaveFails = false) :
    generateBody env ofn keep cb st0 =
      (Except.ok (ofn.getD (mergedName env.ts1),
          if keep then some (gNames keep 0 (process_dataframe raw).length) else none),
        let st1 : FSState := if keep then st0 else { st0 with tempDir := true }
        let st2 := (renderLoop env keep (process_dataframe raw) 0 st1).2
        let st3 := (doBackup env cb (ofn.getD (mergedName env.ts1)) st2).2
        let st4 : FSState := { st3 with
          files := setF st3.files (ofn.getD (mergedName env.ts1))
            (Content.doc ((process_dataframe raw).map f)) }
        if keep then st4 else cleanup env (gNames keep 0 (process_dataframe raw).length) st4) := by
  have hrs : env.readExcel = Except.ok raw := hre
  obtain ⟨R1, R2, R3, R4⟩ := renderLoop_ok env keep (process_dataframe raw) f hf 0
    (if keep then st0 else { st0 with tempDir := true })
  have hetaR : renderLoop env keep (process_dataframe raw) 0
      (if keep then st0 else { st0 with tempDir := true }) =
      (Except.ok (gNames keep 0 (process_dataframe raw).length),
        (renderLoop env keep (process_dataframe raw) 0
          (if keep then st0 else { st0 with tempDir := true })).2) := by
    rw [← R1]
  have hetaB : doBackup env cb (ofn.getD (mergedName env.ts1))
      (renderLoop env keep (process_dataframe raw) 0
        (if keep then st0 else { st0 with tempDir := true })).2 =
      (Except.ok (),
        (doBackup env cb (ofn.getD (mergedName env.ts1))
          (renderLoop env keep (process_dataframe raw) 0
            (if keep then st0 else { st0 with tempDir := true })).2).2) := by
    rw [← doBackup_fst_ok env cb (ofn.getD (mergedName env.ts1)) _ hcf]
  have hgne : gNames keep 0 (process_dataframe raw).length ≠ [] := by
    intro hc
    apply hne
    have hlen := congrArg List.length hc
    simp only [gNames_length, List.length_nil] at hlen
    exact List.length_eq_zero.mp hlen
  have hlook : ∀ j (hj : j < (gNames keep 0 (process_dataframe raw).length).length)
      (hj2 : j < ((process_dataframe raw).map f).length),
      lookupF (doBackup env cb (ofn.getD (mergedName env.ts1))
          (renderLoop env keep (process_dataframe raw) 0
            (if keep then st0 else { st0 with tempDir := true })).2).2.files
          ((gNames keep 0 (process_dataframe raw).length).get ⟨j, hj⟩) =
        some (Content.doc [((process_dataframe raw).map f).get ⟨j, hj2⟩]) := by
    intro j hj hj2
    rw [gNames_get]
    rw [doBackup_snd_lookup env cb (ofn.getD (mergedName env.ts1)) _ _
      (Ne.symm (backupName_ne_docName env.ts2 (ofn.getD (mergedName env.ts1)) keep (0 + 1 + j)))]
    have hjr : j < (process_dataframe raw).length := by
      simpa [gNames_length] using hj
    rw [R4 j hjr]
    simp
  have hmerge : doMergeSave env (ofn.getD (mergedName env.ts1))
      (gNames keep 0 (process_dataframe raw).length)
      (doBackup env cb (ofn.getD (mergedName env.ts1))
        (renderLoop env keep (process_dataframe raw) 0
          (if keep then st0 else { st0 with tempDir := true })).2).2 =
      (Except.ok (),
        { (doBackup env cb (ofn.getD (mergedName env.ts1))
            (renderLoop env keep (process_dataframe raw) 0
              (if keep then st0 else { st0 with tempDir := true })).2).2 with
          files := setF (doBackup env cb (ofn.getD (mergedName env.ts1))
              (renderLoop env keep (process_dataframe raw) 0
                (if keep then st0 else { st0 with tempDir := true })).2).2.files
            (ofn.getD (mergedName env.ts1))
            (Content.doc ((process_dataframe raw).map f)) }) := by
    simp only [doMergeSave]
    rw [mergeRead_ok _ (gNames keep 0 (process_dataframe raw).length)
      ((process_dataframe raw).map f) (by simp [gNames_length]) hgne hlook, hms]
    simp
  simp only [generateBody, hre]
  rw [hetaR]
  dsimp only
  rw [hetaB]
  dsimp only
  rw [hmerge]

/-! ### The render loop stopped by a failing record -/

theorem renderLoop_err (env : Env) (keep : Bool) (bad : Rec) (e : PyErr)
    (hbad : env.renderSave bad = Except.error e) :
    ∀ (pre post : List Rec) (f : Rec → Seg),
    (∀ r ∈ pre, env.renderSave r = Except.ok (f r)) →
    ∀ (i : Nat) (st : FSState),
    (renderLoop env keep (pre ++ bad :: post) i st).1 = Except.error e ∧
    (renderLoop env keep (pre ++ bad :: post) i st).2.tempDir = st.tempDir ∧
    (∀ p : Str, (∀ j, j < pre.length → p ≠ docName keep (i + 1 + j)) →
      lookupF (renderLoop env keep (pre ++ bad :: post) i st).2.files p =
        lookupF st.files p) ∧
    (∀ j (hj : j < pre.length),
      lookupF (renderLoop env keep (pre ++ bad :: post) i st).2.files
          (docName keep (i + 1 + j)) = some (Content.doc [f (pre.get ⟨j, hj⟩)])) := by
  intro pre
  induction pre with
  | nil =>
    intro post f hf i st
    have hstep : renderLoop env keep ([] ++ bad :: post) i st = (Except.error e, st) := by
      simp only [List.nil_append, renderLoop, hbad]
    rw [hstep]
    exact ⟨rfl, rfl, fun p hp => rfl, fun j hj => absurd hj (by simp)⟩
  | cons r rest ih =>
    intro post f hf i st
    have hr : env.renderSave r = Except.ok (f r) := hf r (List.mem_cons_self _ _)
    have hfr : ∀ q ∈ rest, env.renderSave q = Except.ok (f q) :=
      fun q hq => hf q (List.mem_cons_of_mem r hq)
    have IH := ih post f hfr (i + 1)
      { st with files := setF st.files (docName keep (i + 1)) (Content.doc [f r]) }
    rcases hrec : renderLoop env keep (rest ++ bad :: post) (i + 1)
        { st with files := setF st.files (docName keep (i + 1)) (Content.doc [f r]) } with
      ⟨res, st2⟩
    rw [hrec] at IH
    obtain ⟨IH1, IH2, IH3, IH4⟩ := IH
    dsimp only at IH1 IH2 IH3 IH4
    subst IH1
    have hstep : renderLoop env keep ((r :: rest) ++ bad :: post) i st =
        (Except.error e, st2) := by
      simp only [List.cons_append, renderLoop, hr, List.append_eq]
      rw [hrec]
    rw [hstep]
    refine ⟨rfl, IH2, ?_, ?_⟩
    · intro p hp
      have h0 : p ≠ docName keep (i + 1) := by
        have := hp 0 (by simp)
        simpa using this
      have hrest : ∀ j, j < rest.length → p ≠ docName keep (i + 1 + 1 + j) := by
        intro j hj
        have := hp (j + 1) (by simp; omega)
        have harith : i + 1 + (j + 1) = i + 1 + 1 + j := by omega
        rw [harith] at this
        exact this
      rw [IH3 p hrest]
      exact lookupF_setF_ne st.files (docName keep (i + 1)) (Content.doc [f r]) p h0
    · intro j hj
      cases j with
      | zero =>
        have hne : ∀ j2, j2 < rest.length →
            docName keep (i + 1 + 0) ≠ docName keep (i + 1 + 1 + j2) := by
          intro j2 hj2 hc
          have := docName_inj keep _ _ hc
          omega
        rw [IH3 _ hne]
        have : i + 1 + 0 = i + 1 := by omega
        rw [this]
        rw [lookupF_setF_self]
        rfl
      | succ j1 =>
        have harith : i + 1 + (j1 + 1) = i + 1 + 1 + j1 := by omega
        rw [harith]
        have hj1 : j1 < rest.length := by
          simp only [List.length_cons] at hj
          omega
        rw [IH4 j1 hj1]
        rfl

/-! ### Helper facts for the claims -/

theorem gNames_mem (keep : Bool) (i n : Nat) (p : Str) :
    p ∈ gNames keep i n ↔ ∃ j, j < n ∧ p = docName keep (i + 1 + j) := by
  simp only [gNames, List.mem_map, List.mem_range]
  constructor
  · rintro ⟨j, hj, rfl⟩
    exact ⟨j, hj, rfl⟩
  · rintro ⟨j, hj, rfl⟩
    exact ⟨j, hj, rfl⟩

theorem fmt03_length_of_le (n : Nat) (h : n ≤ 999) : (fmt03 n).length = 3 :=
  padNum_length 3 n (natDigits_length_le n 3 (by omega) (by
    have h3 : (10 : Nat) ^ 3 = 1000 := by norm_num
    omega))

theorem docName_strLt (keep : Bool) (a b : Nat) (hab : a < b) (hb : b ≤ 999) :
    strLt (docName keep a) (docName keep b) = true := by
  have hlen : (fmt03 a).length = (fmt03 b).length := by
    rw [fmt03_length_of_le a (by omega), fmt03_length_of_le b hb]
  have hne : fmt03 a ≠ fmt03 b := fun hc => absurd (fmt03_inj a b hc) (by omega)
  cases keep
  · show strLt ("temp_individual_docs/doc_".data ++ (fmt03 a ++ ".docx".data))
        ("temp_individual_docs/doc_".data ++ (fmt03 b ++ ".docx".data)) = true
    rw [strLt_append_same, strLt_append_eqlen (fmt03 a) (fmt03 b) _ _ hlen hne]
    exact fmt03_strLt a b hab hb
  · show strLt ("generated_doc_".data ++ (fmt03 a ++ ".docx".data))
        ("generated_doc_".data ++ (fmt03 b ++ ".docx".data)) = true
    rw [strLt_append_same, strLt_append_eqlen (fmt03 a) (fmt03 b) _ _ hlen hne]
    exact fmt03_strLt a b hab hb

theorem generateBody_ok_shape (env : Env) (ofn : Option Str) (keep cb : Bool) (st0 : FSState)
    (nm : Str) (gf : Option (List Str)) (stF : FSState)
    (h : generateBody env ofn keep cb st0 = (Except.ok (nm, gf), stF)) :
    ∃ l : List Str, gf = if keep then some l else none := by
  cases hre : env.readExcel with
  | error e =>
    simp only [generateBody, hre] at h
    exact absurd h (by simp)
  | ok df =>
    simp only [generateBody, hre] at h
    rcases hR : renderLoop env keep (process_dataframe df) 0
        (if keep then st0 else { st0 with tempDir := true }) with ⟨resR, st2⟩
    rw [hR] at h
    cases resR with
    | error e => exact absurd h (by simp)
    | ok gfiles =>
      dsimp only at h
      rcases hB : doBackup env cb (ofn.getD (mergedName env.ts1)) st2 with ⟨resB, st3⟩
      rw [hB] at h
      cases resB with
      | error e => exact absurd h (by simp)
      | ok u =>
        dsimp only at h
        rcases hM : doMergeSave env (ofn.getD (mergedName env.ts1)) gfiles st3 with
          ⟨resM, st4⟩
        rw [hM] at h
        cases resM with
        | error e => exact absurd h (by simp)
        | ok u2 =>
          dsimp only at h
          refine ⟨gfiles, ?_⟩
          simp only [Prod.mk.injEq, Except.ok.injEq] at h
          exact h.1.2.symm

/-! ### The claims -/

/-- C1: for every non-empty list of rendered per-record document files on disk,
the merge step (src/app.py lines 85-94) returns exactly the ordered
concatenation: one content segment per input file, segment `j` being the
rendered content of record `j`, with no reordering, deduplication or
transformation. -/
theorem claim1_merge_ordered_concat (fs : List (Str × Content)) (names : List Str)
    (segs : List Seg) (hlen : names.length = segs.length) (hne : names ≠ [])
    (h : ∀ j (hj : j < names.length) (hj2 : j < segs.length),
      lookupF fs (names.get ⟨j, hj⟩) = some (Content.doc [segs.get ⟨j, hj2⟩])) :
    mergeRead fs names = Except.ok segs :=
  mergeRead_ok fs names segs hlen hne h

theorem claim1_witness :
    mergeRead
      [("a".data, Content.doc [5]), ("b".data, Content.doc [7]), ("c".data, Content.doc [9])]
      ["a".data, "b".data, "c".data] = Except.ok [5, 7, 9] :=
  claim1_merge_ordered_concat _ ["a".data, "b".data, "c".data] [5, 7, 9]
    (by decide) (by decide) (by decide)

/-- C2 counterexample: on an empty record set the orchestrator does not return
an empty sequence without error and without side effects: it returns
`(None, None)` (the merge step raised on zero documents and the handler caught
it), and the temp directory has been created as a side effect. -/
theorem claim2_cex :
    (generate_documents envEmptyW (some "out.docx".data) false false stEmptyW).1 =
      (none, none) ∧
    ((generate_documents envEmptyW (some "out.docx".data) false false stEmptyW).2).tempDir =
      true ∧
    stEmptyW.tempDir = false := by decide

/-- C2 amended: for an empty record set `generate_documents` always returns
`(None, None)`: the loop produces no files and the merge step fails on the
empty batch (`generated_files[0]` raises `IndexError`, the model's
`EmptyBatchError`), which the handler catches; side effects made before the
failure (temp directory, backup) are not undone. Merging zero documents always
fails. -/
theorem claim2_amended (env : Env) (ofn : Option Str) (keep cb : Bool) (st0 : FSState)
    (hre : env.readExcel = Except.ok ([] : List Rec)) :
    (generate_documents env ofn keep cb st0).1 = (none, none) ∧
    ∀ fs : List (Str × Content), mergeRead fs [] = Except.error PyErr.indexError := by
  refine ⟨?_, fun fs => rfl⟩
  have hbody : ∃ e st', generateBody env ofn keep cb st0 = (Except.error e, st') := by
    simp only [generateBody, hre, process_dataframe, List.map_nil, renderLoop]
    rcases hB : doBackup env cb (ofn.getD (mergedName env.ts1))
        (if keep then st0 else { st0 with tempDir := true }) with ⟨resB, st3⟩
    cases resB with
    | error e => exact ⟨e, st3, rfl⟩
    | ok u => exact ⟨PyErr.indexError, st3, rfl⟩
  obtain ⟨e, st', hb⟩ := hbody
  unfold generate_documents
  rw [hb]

theorem claim2_witness :
    (generate_documents envEmptyW (some "out.docx".data) true false stEmptyW).1 =
      (none, none) ∧
    ∀ fs : List (Str × Content), mergeRead fs [] = Except.error PyErr.indexError :=
  claim2_amended envEmptyW (some "out.docx".data) true false stEmptyW rfl

/-- C3 counterexample: a `RenderError` on the second record aborts the batch
and no merged file is produced, but the document rendered for the first record
is NOT discarded: it remains on disk after the run, contradicting the claim
that no partial output is retained. -/
theorem claim3_cex :
    (generate_documents envRenderFailW (some "out.docx".data) false false stEmptyW).1 =
      (none, none) ∧
    lookupF
      ((generate_documents envRenderFailW (some "out.docx".data) false false stEmptyW).2).files
      (tempName 1) = some (Content.doc [5]) := by decide

/-- C3 amended: when rendering record `pre.length + 1` raises `RenderError`,
the batch aborts there: `generate_documents` returns `(None, None)`, no merge
is attempted, and no file outside the per-record names of the already-rendered
prefix is created or changed — but the documents already rendered for the
records before the failing one remain on disk. -/
theorem claim3_amended (env : Env) (ofn : Option Str) (keep cb : Bool) (st0 : FSState)
    (raw : List Rec) (f : Rec → Seg) (pre : List Rec) (bad : Rec) (post : List Rec)
    (hre : env.readExcel = Except.ok raw)
    (hsplit : process_dataframe raw = pre ++ bad :: post)
    (hpre : ∀ r ∈ pre, env.renderSave r = Except.ok (f r))
    (hbad : env.renderSave bad = Except.error PyErr.renderError) :
    (generate_documents env ofn keep cb st0).1 = (none, none) ∧
    (∀ p : Str, (∀ j, j < pre.length → p ≠ docName keep (0 + 1 + j)) →
      lookupF ((generate_documents env ofn keep cb st0).2).files p = lookupF st0.files p) ∧
    (∀ j (hj : j < pre.length),
      lookupF ((generate_documents env ofn keep cb st0).2).files (docName keep (0 + 1 + j)) =
        some (Content.doc [f (pre.get ⟨j, hj⟩)])) := by
  obtain ⟨E1, E2, E3, E4⟩ := renderLoop_err env keep bad PyErr.renderError hbad pre post f
    hpre 0 (if keep then st0 else { st0 with tempDir := true })
  have hetaR : renderLoop env keep (pre ++ bad :: post) 0
      (if keep then st0 else { st0 with tempDir := true }) =
      (Except.error PyErr.renderError,
        (renderLoop env keep (pre ++ bad :: post) 0
          (if keep then st0 else { st0 with tempDir := true })).2) := by
    rw [← E1]
  have hst1f : (if keep then st0 else { st0 with tempDir := true }).files = st0.files := by
    cases keep <;> rfl
  have hrun : generate_documents env ofn keep cb st0 =
      ((none, none),
        (renderLoop env keep (pre ++ bad :: post) 0
          (if keep then st0 else { st0 with tempDir := true })).2) := by
    unfold generate_documents
    simp only [generateBody, hre, hsplit]
    rw [hetaR]
  rw [hrun]
  refine ⟨rfl, ?_, ?_⟩
  · intro p hp
    rw [E3 p hp, hst1f]
  · intro j hj
    exact E4 j hj

theorem claim3_witness :
    (generate_documents envRenderFailW (some "out.docx".data) true false stEmptyW).1 =
      (none, none) ∧
    (∀ p : Str, (∀ j, j < ([recW] : List Rec).length → p ≠ docName true (0 + 1 + j)) →
      lookupF
        ((generate_documents envRenderFailW (some "out.docx".data) true false stEmptyW).2).files
        p = lookupF stEmptyW.files p) ∧
    (∀ j (hj : j < ([recW] : List Rec).length),
      lookupF
        ((generate_documents envRenderFailW (some "out.docx".data) true false stEmptyW).2).files
        (docName true (0 + 1 + j)) =
        some (Content.doc [(fun _ => 5 : Rec → Seg) (([recW] : List Rec).get ⟨j, hj⟩)])) :=
  claim3_amended envRenderFailW (some "out.docx".data) true false stEmptyW
    [recW, recBad] (fun _ => 5) [recW] recBad [] rfl (by decide)
    (by
      intro r hr
      rcases List.mem_singleton.mp hr with rfl
      rfl)
    rfl

/-- C5 counterexample: the generated names are not lexicographically sortable
for all batch sizes: for records 999 and 1000 (input order 999 < 1000) the
name of record 1000 sorts strictly before the name of record 999, because the
index is only padded to three digits. -/
theorem claim5_cex :
    strLt (genName 999) (genName 1000) = false ∧
    strLt (genName 1000) (genName 999) = true ∧ (999 : Nat) < 1000 := by decide

/-- C5 amended: the loop produces exactly one path per record, in input order,
the path of record `j` embedding the zero-padded 1-based index `j+1`; the
names are pairwise distinct for every batch size; and for batches of at most
999 records the lexicographic order of the names equals the input order
(beyond 999 the three-digit padding breaks lexicographic sortability). -/
theorem claim5_amended (env : Env) (keep : Bool) (rs : List Rec) (f : Rec → Seg)
    (hf : ∀ r ∈ rs, env.renderSave r = Except.ok (f r)) (st : FSState) :
    (renderLoop env keep rs 0 st).1 = Except.ok (gNames keep 0 rs.length) ∧
    (∀ j (hj : j < (gNames keep 0 rs.length).length),
      (gNames keep 0 rs.length).get ⟨j, hj⟩ = docName keep (j + 1)) ∧
    (∀ a b : Nat, a ≠ b → docName keep a ≠ docName keep b) ∧
    (rs.length ≤ 999 → ∀ a b : Nat, a < b → b < rs.length →
      strLt (docName keep (a + 1)) (docName keep (b + 1)) = true) := by
  obtain ⟨R1, _, _, _⟩ := renderLoop_ok env keep rs f hf 0 st
  refine ⟨R1, ?_, ?_, ?_⟩
  · intro j hj
    rw [gNames_get]
    congr 1
    omega
  · intro a b hne hc
    exact hne (docName_inj keep a b hc)
  · intro hlen a b hab hb
    exact docName_strLt keep (a + 1) (b + 1) (by omega) (by omega)

theorem claim5_witness :
    (renderLoop envOkW true (process_dataframe [recW]) 0 stEmptyW).1 =
      Except.ok (gNames true 0 (process_dataframe [recW]).length) ∧
    (∀ j (hj : j < (gNames true 0 (process_dataframe [recW]).length).length),
      (gNames true 0 (process_dataframe [recW]).length).get ⟨j, hj⟩ =
        docName true (j + 1)) ∧
    (∀ a b : Nat, a ≠ b → docName true a ≠ docName true b) ∧
    ((process_dataframe [recW]).length ≤ 999 → ∀ a b : Nat, a < b →
      b < (process_dataframe [recW]).length →
      strLt (docName true (a + 1)) (docName true (b + 1)) = true) :=
  claim5_amended envOkW true (process_dataframe [recW]) (fun _ => 5)
    (fun _r _ => rfl) stEmptyW

/-- C6: normalization matches its definition and is idempotent: a string value
has every occurrence of the marker `"_x000D_"` replaced by a literal period
(none remains afterwards), a non-string value passes through unchanged, and
applying the substitution twice equals applying it once, for single values and
for whole dataframes. -/
theorem claim6_normalization_idem :
    (∀ v, replace_text (replace_text v) = replace_text v) ∧
    (∀ t, replace_text (Value.s t) = Value.s (replaceStr t)) ∧
    (∀ n, replace_text (Value.other n) = Value.other n) ∧
    (∀ t, hasMarker (replaceStr t) = false) ∧
    (∀ df, process_dataframe (process_dataframe df) = process_dataframe df) := by
  refine ⟨replace_text_idem, fun t => rfl, fun n => rfl, hasMarker_replaceStr, ?_⟩
  intro df
  simp only [process_dataframe, List.map_map]
  apply List.map_congr_left
  intro r hr
  simp only [Function.comp_apply, List.map_map]
  apply List.map_congr_left
  intro kv hkv
  simp only [Function.comp_apply]
  rw [replace_text_idem]

/-- C10: `generate_documents` never propagates an exception: every run returns
either `(None, None)` (some step raised and the handler caught it) or
`(Some name, files)` where `files` is the generated-path list exactly when
`keep_individual` is true and `None` otherwise. -/
theorem claim10_exceptions_caught (env : Env) (ofn : Option Str) (keep cb : Bool)
    (st0 : FSState) :
    (generate_documents env ofn keep cb st0).1 = (none, none) ∨
    ∃ nm gfs, (generate_documents env ofn keep cb st0).1 =
      (some nm, if keep then some gfs else none) := by
  unfold generate_documents
  rcases hb : generateBody env ofn keep cb st0 with ⟨res, st⟩
  cases res with
  | error e =>
    left
    rfl
  | ok v =>
    obtain ⟨nm, gf⟩ := v
    obtain ⟨l, hl⟩ := generateBody_ok_shape env ofn keep cb st0 nm gf st hb
    right
    exact ⟨nm, l, by dsimp only; rw [hl]⟩

theorem run_success_gd (env : Env) (ofn : Option Str) (keep cb : Bool) (st0 : FSState)
    (raw : List Rec) (f : Rec → Seg)
    (hre : env.readExcel = Except.ok raw)
    (hf : ∀ r ∈ process_dataframe raw, env.renderSave r = Except.ok (f r))
    (hne : process_dataframe raw ≠ [])
    (hcf : env.copyFails = false)
    (hms : env.mergeSaveFails = false) :
    generate_documents env ofn keep cb st0 =
      ((some (ofn.getD (mergedName env.ts1)),
          if keep then some (gNames keep 0 (process_dataframe raw).length) else none),
        successState env ofn keep cb st0 (process_dataframe raw) f) := by
  unfold generate_documents
  rw [run_success env ofn keep cb st0 raw f hre hf hne hcf hms]
  rfl

/-! ### Injectivity of the timestamped default name -/

theorem padNum_len4 (m : Nat) (hm : m < 10000) : (padNum 4 m).length = 4 :=
  padNum_length 4 m (natDigits_length_le m 4 (by omega) (by
    have h4 : (10 : Nat) ^ 4 = 10000 := by norm_num
    omega))

theorem padNum_len2 (m : Nat) (hm : m < 100) : (padNum 2 m).length = 2 :=
  padNum_length 2 m (natDigits_length_le m 2 (by omega) (by
    have h2 : (10 : Nat) ^ 2 = 100 := by norm_num
    omega))

theorem fmtTS_inj (t u : Timestamp) (ht : t.valid) (hu : u.valid)
    (h : fmtTS t = fmtTS u) : t = u := by
  obtain ⟨hty, htm, htd, hth, htmi, hts⟩ := ht
  obtain ⟨huy, hum, hud, huh, humi, hus⟩ := hu
  unfold fmtTS at h
  obtain ⟨h1, h2⟩ := List.append_inj h (by
    simp only [List.length_append, padNum_len4 _ hty, padNum_len4 _ huy,
      padNum_len2 _ htm, padNum_len2 _ hum, padNum_len2 _ htd, padNum_len2 _ hud])
  obtain ⟨h3, h4⟩ := List.append_inj h1 (by
    simp only [List.length_append, padNum_len4 _ hty, padNum_len4 _ huy,
      padNum_len2 _ htm, padNum_len2 _ hum])
  obtain ⟨h5, h6⟩ := List.append_inj h3 (by rw [padNum_len4 _ hty, padNum_len4 _ huy])
  injection h2 with hu0 h7
  obtain ⟨h8, h9⟩ := List.append_inj h7 (by
    simp only [List.length_append, padNum_len2 _ hth, padNum_len2 _ huh,
      padNum_len2 _ htmi, padNum_len2 _ humi])
  obtain ⟨h10, h11⟩ := List.append_inj h8 (by rw [padNum_len2 _ hth, padNum_len2 _ huh])
  cases t
  cases u
  simp only [Timestamp.mk.injEq]
  exact ⟨padNum_inj 4 _ _ h5, padNum_inj 2 _ _ h6, padNum_inj 2 _ _ h4,
    padNum_inj 2 _ _ h10, padNum_inj 2 _ _ h11, padNum_inj 2 _ _ h9⟩

theorem mergedName_inj (t u : Timestamp) (ht : t.valid) (hu : u.valid)
    (h : mergedName t = mergedName u) : t = u := by
  have h0 : "merged_document_".data ++ (fmtTS t ++ ".docx".data) =
      "merged_document_".data ++ (fmtTS u ++ ".docx".data) := h
  exact fmtTS_inj t u ht hu (List.append_cancel_right (List.append_cancel_left h0))

/-- C9: when no output filename is requested, a successful run names its
output `merged_document_<timestamp>.docx` where the timestamp is rendered as
`YYYYMMDD_HHMMSS`, and this naming is injective on (valid) timestamps, so runs
started at different clock seconds never collide. -/
theorem claim9_default_name (env : Env) (keep cb : Bool) (st0 : FSState)
    (raw : List Rec) (f : Rec → Seg)
    (hre : env.readExcel = Except.ok raw)
    (hf : ∀ r ∈ process_dataframe raw, env.renderSave r = Except.ok (f r))
    (hne : process_dataframe raw ≠ [])
    (hcf : env.copyFails = false)
    (hms : env.mergeSaveFails = false) :
    (generate_documents env none keep cb st0).1.1 = some (mergedName env.ts1) ∧
    mergedName env.ts1 =
      "merged_document_".data ++
        (padNum 4 env.ts1.year ++ padNum 2 env.ts1.month ++ padNum 2 env.ts1.day ++
          '_' :: (padNum 2 env.ts1.hour ++ padNum 2 env.ts1.minute ++
            padNum 2 env.ts1.second)) ++ ".docx".data ∧
    (∀ t u : Timestamp, t.valid → u.valid → mergedName t = mergedName u → t = u) := by
  refine ⟨?_, rfl, mergedName_inj⟩
  rw [run_success_gd env none keep cb st0 raw f hre hf hne hcf hms]
  rfl

theorem claim9_witness :
    (generate_documents envOkW none false false stEmptyW).1.1 = some (mergedName tsW) ∧
    mergedName tsW =
      "merged_document_".data ++
        (padNum 4 tsW.year ++ padNum 2 tsW.month ++ padNum 2 tsW.day ++
          '_' :: (padNum 2 tsW.hour ++ padNum 2 tsW.minute ++ padNum 2 tsW.second)) ++
        ".docx".data ∧
    (∀ t u : Timestamp, t.valid → u.valid → mergedName t = mergedName u → t = u) :=
  claim9_default_name envOkW false false stEmptyW [recW] (fun _ => 5)
    rfl (fun _r _ => rfl) (by decide) rfl rfl

/-- C8: cleanup-phase failures are never fatal: whenever reading, rendering,
backup and merge succeed, the function returns the merged output filename
(paired with `None`), for every behavior of the `os.remove`/`rmdir` oracles —
deletion errors are swallowed and do not change the reported outcome. -/
theorem claim8_cleanup_never_fatal (env : Env) (ofn : Option Str) (cb : Bool)
    (st0 : FSState) (raw : List Rec) (f : Rec → Seg)
    (hre : env.readExcel = Except.ok raw)
    (hf : ∀ r ∈ process_dataframe raw, env.renderSave r = Except.ok (f r))
    (hne : process_dataframe raw ≠ [])
    (hcf : env.copyFails = false)
    (hms : env.mergeSaveFails = false) :
    (generate_documents env ofn false cb st0).1 =
      (some (ofn.getD (mergedName env.ts1)), none) := by
  rw [run_success_gd env ofn false cb st0 raw f hre hf hne hcf hms]
  rfl

theorem claim8_witness :
    (generate_documents envRmFailW (some "out.docx".data) false false stEmptyW).1 =
      (some "out.docx".data, none) :=
  claim8_cleanup_never_fatal envRmFailW (some "out.docx".data) false stEmptyW
    [recW] (fun _ => 5) rfl (fun _r _ => rfl) (by decide) rfl rfl

/-! ### Observations on the final state of a successful run -/

theorem successState_true (env : Env) (ofn : Option Str) (cb : Bool) (st0 : FSState)
    (rs : List Rec) (f : Rec → Seg) :
    successState env ofn true cb st0 rs f =
      { (doBackup env cb (ofn.getD (mergedName env.ts1))
          (renderLoop env true rs 0 st0).2).2 with
        files := setF (doBackup env cb (ofn.getD (mergedName env.ts1))
            (renderLoop env true rs 0 st0).2).2.files
          (ofn.getD (mergedName env.ts1)) (Content.doc (rs.map f)) } := rfl

theorem successState_false (env : Env) (ofn : Option Str) (cb : Bool) (st0 : FSState)
    (rs : List Rec) (f : Rec → Seg) :
    successState env ofn false cb st0 rs f =
      cleanup env (gNames false 0 rs.length)
        { (doBackup env cb (ofn.getD (mergedName env.ts1))
            (renderLoop env false rs 0 { st0 with tempDir := true }).2).2 with
          files := setF (doBackup env cb (ofn.getD (mergedName env.ts1))
              (renderLoop env false rs 0 { st0 with tempDir := true }).2).2.files
            (ofn.getD (mergedName env.ts1)) (Content.doc (rs.map f)) } := rfl

theorem successState_lookup_stable (env : Env) (ofn : Option Str) (keep cb : Bool)
    (st0 : FSState) (rs : List Rec) (f : Rec → Seg) (p : Str)
    (hf : ∀ r ∈ rs, env.renderSave r = Except.ok (f r))
    (hpb : p ≠ backupName env.ts2 (ofn.getD (mergedName env.ts1)))
    (hpo : p ≠ ofn.getD (mergedName env.ts1))
    (hpd : ∀ j, j < rs.length → p ≠ docName keep (0 + 1 + j)) :
    lookupF (successState env ofn keep cb st0 rs f).files p = lookupF st0.files p := by
  obtain ⟨R1, R2, R3, R4⟩ := renderLoop_ok env keep rs f hf 0
    (if keep then st0 else { st0 with tempDir := true })
  have h4 : lookupF (setF (doBackup env cb (ofn.getD (mergedName env.ts1))
      (renderLoop env keep rs 0 (if keep then st0 else { st0 with tempDir := true })).2).2.files
      (ofn.getD (mergedName env.ts1)) (Content.doc (rs.map f))) p = lookupF st0.files p := by
    rw [lookupF_setF_ne _ _ _ _ hpo, doBackup_snd_lookup env cb _ _ p hpb, R3 p hpd]
    cases keep <;> rfl
  cases keep with
  | true => exact h4
  | false =>
    rw [successState_false, cleanup_files, lookupF_cleanupFiles]
    have hnm : ¬(p ∈ gNames false 0 rs.length ∧ env.removeFails p = false) := by
      rintro ⟨hmem, -⟩
      obtain ⟨j, hj, rfl⟩ := (gNames_mem false 0 rs.length p).mp hmem
      exact hpd j hj rfl
    rw [if_neg hnm]
    exact h4

theorem successState_lookup_out (env : Env) (ofn : Option Str) (keep cb : Bool)
    (st0 : FSState) (rs : List Rec) (f : Rec → Seg)
    (hod : ∀ j, j < rs.length → ofn.getD (mergedName env.ts1) ≠ docName keep (0 + 1 + j)) :
    lookupF (successState env ofn keep cb st0 rs f).files (ofn.getD (mergedName env.ts1)) =
      some (Content.doc (rs.map f)) := by
  have h4 : lookupF (setF (doBackup env cb (ofn.getD (mergedName env.ts1))
      (renderLoop env keep rs 0 (if keep then st0 else { st0 with tempDir := true })).2).2.files
      (ofn.getD (mergedName env.ts1)) (Content.doc (rs.map f)))
      (ofn.getD (mergedName env.ts1)) = some (Content.doc (rs.map f)) :=
    lookupF_setF_self _ _ _
  cases keep with
  | true => exact h4
  | false =>
    rw [successState_false, cleanup_files, lookupF_cleanupFiles]
    have hnm : ¬(ofn.getD (mergedName env.ts1) ∈ gNames false 0 rs.length ∧
        env.removeFails (ofn.getD (mergedName env.ts1)) = false) := by
      rintro ⟨hmem, -⟩
      obtain ⟨j, hj, hje⟩ := (gNames_mem false 0 rs.length _).mp hmem
      exact hod j hj hje
    rw [if_neg hnm]
    exact h4

theorem successState_lookup_backup (env : Env) (ofn : Option Str) (keep : Bool)
    (st0 : FSState) (rs : List Rec) (f : Rec → Seg) (c0 : Content)
    (hf : ∀ r ∈ rs, env.renderSave r = Except.ok (f r))
    (hcf : env.copyFails = false)
    (h0 : lookupF st0.files (ofn.getD (mergedName env.ts1)) = some c0)
    (hod : ∀ j, j < rs.length → ofn.getD (mergedName env.ts1) ≠ docName keep (0 + 1 + j)) :
    lookupF (successState env ofn keep true st0 rs f).files
      (backupName env.ts2 (ofn.getD (mergedName env.ts1))) = some c0 := by
  obtain ⟨R1, R2, R3, R4⟩ := renderLoop_ok env keep rs f hf 0
    (if keep then st0 else { st0 with tempDir := true })
  have h2O : lookupF (renderLoop env keep rs 0
      (if keep then st0 else { st0 with tempDir := true })).2.files
      (ofn.getD (mergedName env.ts1)) = some c0 := by
    rw [R3 _ hod]
    cases keep <;> exact h0
  have hbk4 : lookupF (setF (doBackup env true (ofn.getD (mergedName env.ts1))
      (renderLoop env keep rs 0 (if keep then st0 else { st0 with tempDir := true })).2).2.files
      (ofn.getD (mergedName env.ts1)) (Content.doc (rs.map f)))
      (backupName env.ts2 (ofn.getD (mergedName env.ts1))) = some c0 := by
    rw [lookupF_setF_ne _ _ _ _ (backupName_ne_self env.ts2 _)]
    exact doBackup_lookup_backup env _ _ c0 hcf h2O
  cases keep with
  | true => exact hbk4
  | false =>
    rw [successState_false, cleanup_files, lookupF_cleanupFiles]
    have hnm : ¬(backupName env.ts2 (ofn.getD (mergedName env.ts1)) ∈
        gNames false 0 rs.length ∧
        env.removeFails (backupName env.ts2 (ofn.getD (mergedName env.ts1))) = false) := by
      rintro ⟨hmem, -⟩
      obtain ⟨j, hj, hje⟩ := (gNames_mem false 0 rs.length _).mp hmem
      exact backupName_ne_docName env.ts2 _ false (0 + 1 + j) hje
    rw [if_neg hnm]
    exact hbk4

theorem successState_doc_none (env : Env) (ofn : Option Str) (cb : Bool) (st0 : FSState)
    (rs : List Rec) (f : Rec → Seg) (j : Nat) (hj : j < rs.length)
    (hrm : env.removeFails (docName false (0 + 1 + j)) = false) :
    lookupF (successState env ofn false cb st0 rs f).files (docName false (0 + 1 + j)) =
      none := by
  rw [successState_false, cleanup_files, lookupF_cleanupFiles]
  rw [if_pos ⟨(gNames_mem false 0 rs.length _).mpr ⟨j, hj, rfl⟩, hrm⟩]

theorem successState_tempDir_false (env : Env) (ofn : Option Str) (cb : Bool)
    (st0 : FSState) (rs : List Rec) (f : Rec → Seg)
    (hf : ∀ r ∈ rs, env.renderSave r = Except.ok (f r))
    (ha : anyTemp (successState env ofn false cb st0 rs f).files = false)
    (hr : env.rmdirFails = false) :
    (successState env ofn false cb st0 rs f).tempDir = false := by
  obtain ⟨R1, R2, R3, R4⟩ := renderLoop_ok env false rs f hf 0 { st0 with tempDir := true }
  rw [successState_false] at ha ⊢
  rw [cleanup_files] at ha
  apply cleanup_tempDir_false _ _ _ ha hr
  show (doBackup env cb (ofn.getD (mergedName env.ts1))
      (renderLoop env false rs 0 { st0 with tempDir := true }).2).2.tempDir = true
  rw [doBackup_snd_tempDir, R2]

/-- C4 counterexample: when the requested output path collides with a
generated per-record path (`keep_individual` with output name
`generated_doc_001.docx`), the render loop overwrites the pre-existing file
before the backup is taken, so the backup holds the rendered content, not the
pre-run content of the target path. -/
theorem claim4_cex :
    lookupF stClashW.files (genName 1) = some (Content.raw 42) ∧
    (generate_documents envOkW (some (genName 1)) true true stClashW).1.1 =
      some (genName 1) ∧
    lookupF ((generate_documents envOkW (some (genName 1)) true true stClashW).2).files
        (backupName tsW (genName 1)) = some (Content.doc [5]) ∧
    lookupF ((generate_documents envOkW (some (genName 1)) true true stClashW).2).files
        (backupName tsW (genName 1)) ≠ some (Content.raw 42) := by decide

/-- C4 amended: if the target output path is none of the per-record file
paths, then on every successful run with `create_backup` and a pre-existing
file at the target, the pre-existing content is copied to
`backup_<timestamp>_<original_name>` before the merged write; afterwards the
backup holds exactly the pre-run content of the target, the target holds the
freshly merged document, and the only new files are the backup, the target,
and the per-record files — so exactly one new backup file exists. -/
theorem claim4_backup_invariant (env : Env) (ofn : Option Str) (keep : Bool)
    (st0 : FSState) (raw : List Rec) (f : Rec → Seg) (c0 : Content)
    (hre : env.readExcel = Except.ok raw)
    (hf : ∀ r ∈ process_dataframe raw, env.renderSave r = Except.ok (f r))
    (hne : process_dataframe raw ≠ [])
    (hcf : env.copyFails = false)
    (hms : env.mergeSaveFails = false)
    (hout : ∀ j, j < (process_dataframe raw).length →
      ofn.getD (mergedName env.ts1) ≠ docName keep (0 + 1 + j))
    (h0 : lookupF st0.files (ofn.getD (mergedName env.ts1)) = some c0) :
    lookupF ((generate_documents env ofn keep true st0).2).files
        (backupName env.ts2 (ofn.getD (mergedName env.ts1))) = some c0 ∧
    lookupF ((generate_documents env ofn keep true st0).2).files
        (ofn.getD (mergedName env.ts1)) =
      some (Content.doc ((process_dataframe raw).map f)) ∧
    (∀ p : Str, lookupF st0.files p = none →
      lookupF ((generate_documents env ofn keep true st0).2).files p ≠ none →
      p = backupName env.ts2 (ofn.getD (mergedName env.ts1)) ∨
      p = ofn.getD (mergedName env.ts1) ∨
      ∃ j, j < (process_dataframe raw).length ∧ p = docName keep (0 + 1 + j)) := by
  have hgd := run_success_gd env ofn keep true st0 raw f hre hf hne hcf hms
  rw [hgd]
  dsimp only
  refine ⟨successState_lookup_backup env ofn keep st0 _ f c0 hf hcf h0 hout,
    successState_lookup_out env ofn keep true st0 _ f hout, ?_⟩
  intro p hp0 hps
  by_contra hcon
  push_neg at hcon
  obtain ⟨hc1, hc2, hc3⟩ := hcon
  exact hps (by
    rw [successState_lookup_stable env ofn keep true st0 (process_dataframe raw) f p
      hf hc1 hc2 hc3]
    exact hp0)

theorem claim4_witness :
    lookupF
      ((generate_documents envOkW (some "out.docx".data) false true stOutW).2).files
      (backupName tsW "out.docx".data) = some (Content.raw 7) ∧
    lookupF
      ((generate_documents envOkW (some "out.docx".data) false true stOutW).2).files
      "out.docx".data = some (Content.doc ((process_dataframe [recW]).map (fun _ => 5))) ∧
    (∀ p : Str, lookupF stOutW.files p = none →
      lookupF ((generate_documents envOkW (some "out.docx".data) false true stOutW).2).files
        p ≠ none →
      p = backupName tsW "out.docx".data ∨ p = "out.docx".data ∨
      ∃ j, j < (process_dataframe [recW]).length ∧ p = docName false (0 + 1 + j)) :=
  claim4_backup_invariant envOkW (some "out.docx".data) false stOutW [recW]
    (fun _ => 5) (Content.raw 7) rfl (fun _r _ => rfl) (by decide) rfl rfl
    (by decide) (by decide)

/-- C7 counterexample: a run with `keep_individual=false` that reaches
finalize but whose deletions all raise `IOError` still reports success, and
the intermediate per-record file is still on disk after finalize. -/
theorem claim7_cex :
    (generate_documents envRmFailW (some "out.docx".data) false false stEmptyW).1 =
      (some "out.docx".data, none) ∧
    lookupF
      ((generate_documents envRmFailW (some "out.docx".data) false false stEmptyW).2).files
      (tempName 1) = some (Content.doc [5]) := by decide

/-- C7 amended: on every successful run with `keep_individual=false` whose
cleanup deletions do not fail, none of the intermediate per-record files exist
after finalize, and the temp directory is removed whenever it ends up empty
and its removal does not fail (deletion failures are swallowed and leave the
affected files behind). -/
theorem claim7_cleanup_invariant (env : Env) (ofn : Option Str) (cb : Bool)
    (st0 : FSState) (raw : List Rec) (f : Rec → Seg)
    (hre : env.readExcel = Except.ok raw)
    (hf : ∀ r ∈ process_dataframe raw, env.renderSave r = Except.ok (f r))
    (hne : process_dataframe raw ≠ [])
    (hcf : env.copyFails = false)
    (hms : env.mergeSaveFails = false)
    (hrm : ∀ j, j < (process_dataframe raw).length →
      env.removeFails (docName false (0 + 1 + j)) = false) :
    (∀ j, j < (process_dataframe raw).length →
      lookupF ((generate_documents env ofn false cb st0).2).files
        (docName false (0 + 1 + j)) = none) ∧
    (anyTemp ((generate_documents env ofn false cb st0).2).files = false →
      env.rmdirFails = false →
      ((generate_documents env ofn false cb st0).2).tempDir = false) := by
  have hgd := run_success_gd env ofn false cb st0 raw f hre hf hne hcf hms
  rw [hgd]
  dsimp only
  constructor
  · intro j hj
    exact successState_doc_none env ofn cb st0 _ f j hj (hrm j hj)
  · intro ha hr
    exact successState_tempDir_false env ofn cb st0 _ f hf ha hr

theorem claim7_witness :
    (∀ j, j < (process_dataframe [recW]).length →
      lookupF ((generate_documents envOkW (some "out.docx".data) false false stEmptyW).2).files
        (docName false (0 + 1 + j)) = none) ∧
    (anyTemp ((generate_documents envOkW (some "out.docx".data) false false stEmptyW).2).files =
        false →
      envOkW.rmdirFails = false →
      ((generate_documents envOkW (some "out.docx".data) false false stEmptyW).2).tempDir =
        false) :=
  claim7_cleanup_invariant envOkW (some "out.docx".data) false stEmptyW [recW]
    (fun _ => 5) rfl (fun _r _ => rfl) (by decide) rfl rfl (fun _j _ => rfl)

end DocMerge
